import Mathlib
/-!
# HadroDB: verification of the storage-engine specification against the source

Shallow embedding of the hadrodb repository (src/hadrodb/engine.py,
src/hadrodb/record.py, src/R&D/row_class.py).

Modelling conventions:
* Bytes are `Nat` values (every encoder emits values `< 256`); byte strings
  are `List Nat`.
* Python `int` is `Int`; fixed-width machine formats are handled with
  explicit `% 2 ^ w` arithmetic.
* Python `float` (IEEE-754 double) is modelled by its 64-bit big-endian bit
  pattern (a `Nat < 2 ^ 64`); `struct.pack`/`unpack` of `>d` move those bits
  verbatim, so bit patterns are the faithful byte-level view.
* Python `str` values are identified with their UTF-8 byte sequences
  (`str.encode("utf-8")` / `bytes.decode("utf-8")` are mutually inverse on
  the values that occur here, so the codec is modelled at the byte level).
* Fallible operations return `Option` (`none` models a raised exception).
-/

/-- Big-endian byte string of width `w` for the value `v` (mod `256 ^ w`),
as produced by `int.to_bytes(w, "big")` and the `struct` big-endian formats. -/
def beBytes : Nat → Nat → List Nat
  | 0, _ => []
  | w + 1, v => beBytes w (v / 256) ++ [v % 256]

/-- Big-endian value of a byte string, as read by `struct.unpack` big-endian
integer formats. -/
def beVal (bs : List Nat) : Nat :=
  bs.foldl (fun a b => a * 256 + b) 0

/-- Reading exactly `n` bytes from the front of a byte string, failing if
fewer are available (the behaviour of `struct.unpack_from`). -/
def readBytes (n : Nat) (bs : List Nat) : Option (List Nat × List Nat) :=
  if n ≤ bs.length then some (bs.take n, bs.drop n) else none

/-- A Python value as it appears in a row: `None`, `bool`, `int`, `float`
(as its IEEE-754 bit pattern) or `str` (as its UTF-8 byte sequence). -/
inductive Value where
  | null
  | bool (b : Bool)
  | int (i : Int)
  | float (bits : Nat)
  | str (utf8 : List Nat)
deriving DecidableEq

/-- Two's-complement reading of a `w`-byte unsigned value, as done by the
signed big-endian `struct` formats. -/
def sInt (w u : Nat) : Int :=
  if 2 * u < 256 ^ w then (u : Int) else (u : Int) - (256 ^ w : Nat)

/-- Modelled from the spec: the self-describing variant's "generic schemaless
binary serialization" is the external `ormsgpack` dependency (MessagePack).
`packInt` is its minimal-width integer encoding; integers outside the
`int64`/`uint64` ranges are rejected (`none`), as `ormsgpack.packb` raises. -/
def packInt (i : Int) : Option (List Nat) :=
  if 0 ≤ i then
    if i.toNat ≤ 127 then some [i.toNat]
    else if i.toNat ≤ 255 then some (204 :: beBytes 1 i.toNat)
    else if i.toNat ≤ 65535 then some (205 :: beBytes 2 i.toNat)
    else if i.toNat ≤ 4294967295 then some (206 :: beBytes 4 i.toNat)
    else if i.toNat ≤ 18446744073709551615 then some (207 :: beBytes 8 i.toNat)
    else none
  else
    if -32 ≤ i then some [(i + 256).toNat]
    else if -128 ≤ i then some (208 :: beBytes 1 (i + 256).toNat)
    else if -32768 ≤ i then some (209 :: beBytes 2 (i + 65536).toNat)
    else if -2147483648 ≤ i then some (210 :: beBytes 4 (i + 4294967296).toNat)
    else if -9223372036854775808 ≤ i then
      some (211 :: beBytes 8 (i + 18446744073709551616).toNat)
    else none

/-- Modelled from the spec: MessagePack string encoding (fixstr, str8,
str16, str32) of a UTF-8 byte sequence; byte length `≥ 2 ^ 32` is rejected. -/
def packStr (s : List Nat) : Option (List Nat) :=
  if s.length ≤ 31 then some ((160 + s.length) :: s)
  else if s.length ≤ 255 then some (217 :: beBytes 1 s.length ++ s)
  else if s.length ≤ 65535 then some (218 :: beBytes 2 s.length ++ s)
  else if s.length ≤ 4294967295 then some (219 :: beBytes 4 s.length ++ s)
  else none

/-- Modelled from the spec: MessagePack encoding of one scalar value
(`nil`, `bool`, `float64`, minimal-width int, str). -/
def packScalar : Value → Option (List Nat)
  | Value.null => some [192]
  | Value.bool false => some [194]
  | Value.bool true => some [195]
  | Value.int i => packInt i
  | Value.float bits =>
      if bits < 18446744073709551616 then some (203 :: beBytes 8 bits) else none
  | Value.str s => packStr s

/-- Modelled from the spec: MessagePack array header (fixarray, array16,
array32) for an element count. -/
def arrayHeader (n : Nat) : Option (List Nat) :=
  if n ≤ 15 then some [144 + n]
  else if n ≤ 65535 then some (220 :: beBytes 2 n)
  else if n ≤ 4294967295 then some (221 :: beBytes 4 n)
  else none

/-- Concatenated MessagePack encodings of a list of scalar values. -/
def packScalars : List Value → Option (List Nat)
  | [] => some []
  | v :: vs =>
      (packScalar v).bind fun e => (packScalars vs).map fun es => e ++ es

/-- Modelled from the spec: `ormsgpack.packb` applied to the row's tuple of
values — an array header followed by the packed elements.  Rows here hold
scalar values only (the schema types); nested sequences are not needed. -/
def packb (vs : List Value) : Option (List Nat) :=
  (arrayHeader vs.length).bind fun h => (packScalars vs).map fun es => h ++ es

/-- Modelled from the spec: MessagePack decoding of one scalar value,
returning the value and the remaining bytes. -/
def unpackScalar : List Nat → Option (Value × List Nat)
  | [] => none
  | b :: rest =>
    if b < 128 then some (Value.int b, rest)
    else if b < 160 then none
    else if b < 192 then
      (readBytes (b - 160) rest).map fun p => (Value.str p.1, p.2)
    else if b = 192 then some (Value.null, rest)
    else if b = 194 then some (Value.bool false, rest)
    else if b = 195 then some (Value.bool true, rest)
    else if b = 203 then
      (readBytes 8 rest).map fun p => (Value.float (beVal p.1), p.2)
    else if b = 204 then
      (readBytes 1 rest).map fun p => (Value.int (beVal p.1), p.2)
    else if b = 205 then
      (readBytes 2 rest).map fun p => (Value.int (beVal p.1), p.2)
    else if b = 206 then
      (readBytes 4 rest).map fun p => (Value.int (beVal p.1), p.2)
    else if b = 207 then
      (readBytes 8 rest).map fun p => (Value.int (beVal p.1), p.2)
    else if b = 208 then
      (readBytes 1 rest).map fun p => (Value.int (sInt 1 (beVal p.1)), p.2)
    else if b = 209 then
      (readBytes 2 rest).map fun p => (Value.int (sInt 2 (beVal p.1)), p.2)
    else if b = 210 then
      (readBytes 4 rest).map fun p => (Value.int (sInt 4 (beVal p.1)), p.2)
    else if b = 211 then
      (readBytes 8 rest).map fun p => (Value.int (sInt 8 (beVal p.1)), p.2)
    else if b = 217 then
      (readBytes 1 rest).bind fun p =>
        (readBytes (beVal p.1) p.2).map fun q => (Value.str q.1, q.2)
    else if b = 218 then
      (readBytes 2 rest).bind fun p =>
        (readBytes (beVal p.1) p.2).map fun q => (Value.str q.1, q.2)
    else if b = 219 then
      (readBytes 4 rest).bind fun p =>
        (readBytes (beVal p.1) p.2).map fun q => (Value.str q.1, q.2)
    else if 224 ≤ b ∧ b ≤ 255 then some (Value.int ((b : Int) - 256), rest)
    else none

/-- Decode `n` consecutive MessagePack scalar values. -/
def unpackScalars : Nat → List Nat → Option (List Value × List Nat)
  | 0, bs => some ([], bs)
  | n + 1, bs =>
      (unpackScalar bs).bind fun p =>
        (unpackScalars n p.2).map fun q => (p.1 :: q.1, q.2)

/-- Modelled from the spec: MessagePack array-header decoding. -/
def parseArrayHeader : List Nat → Option (Nat × List Nat)
  | [] => none
  | b :: rest =>
    if 144 ≤ b ∧ b ≤ 159 then some (b - 144, rest)
    else if b = 220 then (readBytes 2 rest).map fun p => (beVal p.1, p.2)
    else if b = 221 then (readBytes 4 rest).map fun p => (beVal p.1, p.2)
    else none

/-- Modelled from the spec: `ormsgpack.unpackb` — decode one array of scalar
values and fail if any bytes trail the decoded object (as `ormsgpack`
raises on extra data). -/
def unpackb (bs : List Nat) : Option (List Value) :=
  (parseArrayHeader bs).bind fun p =>
    (unpackScalars p.1 p.2).bind fun q =>
      if q.2 = [] then some q.1 else none

namespace Record

/-- `Row` from src/hadrodb/record.py: a `Row` looks and acts like the tuple
of its values (the `_fields` names only feed `as_dict`, not the codec). -/
abbrev Row := List Value

/-- From record.py `Row.to_bytes`: `packb` the tuple of values, then prepend
one zero flags byte and `record_size.to_bytes(4, "big")` (which raises
`OverflowError`, modelled `none`, for a payload of `2 ^ 32` bytes or more). -/
def Row.to_bytes (r : Row) : Option (List Nat) :=
  (packb r).bind fun record_bytes =>
    if record_bytes.length < 4294967296 then
      some (0 :: beBytes 4 record_bytes.length ++ record_bytes)
    else none

/-- From record.py `Row.from_bytes`: `unpackb` of the given bytes (the
class constructor applied to the decoded fields adds nothing to the value). -/
def Row.from_bytes (data : List Nat) : Option Row :=
  unpackb data

end Record

/-- One record argument to `HadroDB.append`: either a Python dict (its
insertion-ordered `.values()` are taken, keys discarded) or a sequence of
values. -/
inductive RecordInput where
  | mapping (kvs : List (String × Value))
  | sequence (vs : List Value)

/-- From engine.py `HadroDB.__init__`: the hard-coded collection schema as
`(field name, declared type string, nullable)` in insertion order. -/
def engineSchema : List (String × String × Bool) :=
  [("id", "SMALLINT", false), ("planetId", "SMALLINT", false),
    ("name", "VARCHAR", false), ("gm", "FLOAT", false),
    ("radius", "FLOAT", false), ("density", "FLOAT", true),
    ("magnitude", "FLOAT", true), ("albedo", "FLOAT", true)]

/-- The engine state observable in the shallow embedding: the log file's
bytes, the `write_position` counter and the in-memory `key_dir` (a map from
key bytes to a file location). -/
structure HadroDB where
  file : List Nat
  write_position : Nat
  key_dir : List (List Nat × Nat × Nat)
deriving DecidableEq

/-- From engine.py `HadroDB.__init__` on an existing collection: sets
`write_position = 0` and `key_dir = {}`; the call to `_init_key_dir` is
commented out (and `_init_key_dir` itself references the undefined names
`HEADER_SIZE`, `decode_header` and `KeyEntry`), so the state after open is
independent of the existing log contents. -/
def hadroOpen (existing : List Nat) : HadroDB :=
  { file := existing, write_position := 0, key_dir := [] }

/-- From engine.py `HadroDB.append`: take `record.values()` for a dict and
the record itself otherwise, build a `Row` (the schema check in
`Row.__new__` is commented out), write `Row.to_bytes` at the end of the
file (`os.write` on a file opened in append mode) and advance
`write_position` by its length.  The second component is the Python return
value of `append`: the body has no return statement, so it is always
Python `None` (`none` here); `some off` would model returning an offset. -/
def HadroDB.append (db : HadroDB) (record : RecordInput) :
    Option (HadroDB × Option Nat) :=
  let vs := match record with
    | RecordInput.mapping kvs => kvs.map Prod.snd
    | RecordInput.sequence vs => vs
  (Record.Row.to_bytes vs).map fun bytes_to_write =>
    ({ db with
        file := db.file ++ bytes_to_write,
        write_position := db.write_position + bytes_to_write.length }, none)

/-- A buffered file reader: the file's bytes and the current read position. -/
structure Reader where
  file : List Nat
  pos : Nat

/-- `io.BufferedReader.read`: for `n ≥ 0` returns up to `n` bytes from the
current position (fewer only at end of file); for `n = -1` Python reads all
remaining bytes to end of file; for any other negative size — which
engine.py's scan can produce in `buffer.read(block_size - block_start)` —
CPython raises `ValueError` ("read length must be non-negative or -1"),
modelled `none`. -/
def Reader.read (r : Reader) (n : Int) : Option (List Nat × Reader) :=
  if n < -1 then none
  else if n = -1 then some (r.file.drop r.pos, { r with pos := r.file.length })
  else
    let bs := (r.file.drop r.pos).take n.toNat
    some (bs, { r with pos := r.pos + bs.length })

/-- `struct.unpack(">BI", header_bytes)`: requires exactly 5 bytes (else
`struct.error`, modelled `none`) and returns the flags byte and the
big-endian 4-byte payload size. -/
def parseHeader (bs : List Nat) : Option (Nat × Nat) :=
  match bs with
  | [f, a, b, c, d] => some (f, beVal [a, b, c, d])
  | _ => none

/-- Result of a full `HadroDB.scan` pass: the payloads of the non-deleted
frames in file order (the source yields `self.rows.from_bytes(data_bytes)`
for each), or `structError` when `struct.unpack` raises on a short header,
`valueError` when a `buffer.read` call gets a negative size below -1 and
raises `ValueError`; `diverges` when the payload-accumulation loop reads
zero bytes at end of file while `remaining_size > 0` and therefore never
terminates. -/
inductive ScanResult where
  | ok (payloads : List (List Nat))
  | structError
  | valueError
  | diverges
  | fuelOut
deriving DecidableEq

/-- Outcome of the payload-read phase of one scan iteration: the payload
bytes with the reader and `block_start` afterwards, or the inner loop
spinning forever, or a read call raising `ValueError`. -/
inductive AccumResult where
  | done (data : List Nat) (r : Reader) (block_start : Nat)
  | spins
  | readError

/-- From engine.py `HadroDB.scan`, the inner `while remaining_size > 0`
loop: read `min(remaining_size, block_size)` bytes, append them to
`data_bytes`, decrease `remaining_size` by the bytes actually read and set
`block_start` to that count.  A zero-byte read with `remaining_size > 0`
repeats forever (`spins`); the requested size `min(remaining, block_size)`
is never negative, so that read cannot raise (`readError` is unreachable
from here).  The first argument is a structural recursion
bound; every call passes the remaining count itself, and `remaining`
strictly decreases on each iteration, so the bound is never exhausted
before `remaining` reaches 0. -/
def accumLoop (block_size : Nat) :
    Nat → Nat → Reader → Nat → List Nat → AccumResult
  | _, 0, r, block_start, acc => AccumResult.done acc r block_start
  | 0, _ + 1, _, _, _ => AccumResult.spins
  | fuel + 1, remaining + 1, r, block_start, acc =>
    match r.read ((min (remaining + 1) block_size : Nat) : Int) with
    | none => AccumResult.readError
    | some (bb, r2) =>
      if bb.length = 0 then AccumResult.spins
      else
        accumLoop block_size fuel (remaining + 1 - bb.length) r2 bb.length
          (acc ++ bb)

/-- From engine.py `HadroDB.scan`, the `while size > 0` loop, with the
source's `block_start` bookkeeping.  When `block_start + size > block_size`
the record is assumed to span blocks: the source first reads
`block_size - block_start` bytes — an `Int` that can be negative, in which
case Python reads to end of file for exactly -1 and raises `ValueError`
for anything smaller — and then accumulates
`size - (block_size - block_start)` further bytes with `accumLoop`.
`fuel` only bounds the number of loop iterations; each iteration consumes a
5-byte header, so `file.length + 1` iterations are never exhausted. -/
def scanLoop (block_size : Nat) :
    Nat → Reader → Nat → Nat → Nat → List (List Nat) → ScanResult
  | 0, _, _, _, _, _ => ScanResult.fuelOut
  | fuel + 1, r, flags, size, block_start, acc =>
    if size = 0 then ScanResult.ok acc.reverse
    else
      let step : AccumResult :=
        if block_start + size > block_size then
          match r.read ((block_size : Int) - (block_start : Int)) with
          | none => AccumResult.readError
          | some (first, r1) =>
            accumLoop block_size
              (((size : Int) - ((block_size : Int) - (block_start : Int))).toNat)
              (((size : Int) - ((block_size : Int) - (block_start : Int))).toNat)
              r1 block_start first
        else
          match r.read (size : Int) with
          | none => AccumResult.readError
          | some (data, r1) => AccumResult.done data r1 (block_start + size)
      match step with
      | AccumResult.readError => ScanResult.valueError
      | AccumResult.spins => ScanResult.diverges
      | AccumResult.done data r1 bstart =>
        let acc2 := if flags &&& 1 = 0 then data :: acc else acc
        match r1.read 5 with
        | none => ScanResult.valueError
        | some (hdr, r2) =>
          if hdr.length = 0 then ScanResult.ok acc2.reverse
          else
            match parseHeader hdr with
            | none => ScanResult.structError
            | some fs =>
              scanLoop block_size fuel r2 fs.1 fs.2 (bstart + 5) acc2


/-- From engine.py `HadroDB.scan`: seek to 0, read the first 5-byte header
(with no emptiness check before `struct.unpack`), then run the
`while size > 0` loop. -/
def scanFrames (block_size : Nat) (file : List Nat) : ScanResult :=
  let r : Reader := { file := file, pos := 0 }
  match r.read 5 with
  | none => ScanResult.valueError
  | some (hdr, r1) =>
    match parseHeader hdr with
    | none => ScanResult.structError
    | some fs => scanLoop block_size (file.length + 1) r1 fs.1 fs.2 5 []


/-- From engine.py `HadroDB.scan` with the source's fixed
`block_size = 8 * 1024 * 1024`. -/
def HadroDB.scan (db : HadroDB) : ScanResult :=
  scanFrames (8 * 1024 * 1024) db.file

/-- Field types handled by the fixed-width codec of src/R&D/row_class.py:
`TYPE_DICT` (`BOOLEAN`, `FLOAT`, `INTEGER`) plus the special-cased
`VARCHAR`.  A schema naming any other type string makes both `to_bytes`
and `from_bytes` raise `ValueError` unconditionally, so such schemas are
outside the codec's domain. -/
inductive FieldType where
  | BOOLEAN
  | FLOAT
  | INTEGER
  | VARCHAR
deriving DecidableEq

/-- One schema field: name, declared type, nullability, in insertion order
of the schema dict. -/
structure SchemaField where
  name : String
  ftype : FieldType
  nullable : Bool
deriving DecidableEq

/-- Python truthiness, as applied by `struct.pack(">?", value)` (the `?`
format packs `bool(value)`); `0.0` and `-0.0` are the falsy float bit
patterns. -/
def Value.truthy : Value → Bool
  | Value.null => false
  | Value.bool b => b
  | Value.int i => decide (i ≠ 0)
  | Value.float bits => decide (bits ≠ 0 ∧ bits ≠ 9223372036854775808)
  | Value.str s => decide (s ≠ [])

/-- From row_class.py `Row.to_bytes`, one value under a declared type:
`struct.pack(">?")` packs the value's truthiness; `struct.pack(">q")`
accepts `int` and `bool` (a Python `int` subclass) within the signed 64-bit
range; `struct.pack(">d")` accepts a float (the source would also coerce a
Python `int` through `float()`, a numeric conversion that has no byte-level
counterpart in the bit-pattern model); `VARCHAR` calls `value.encode` (so
requires a `str`) and packs `">H"`, which raises `struct.error` above
65535. -/
def encodeValue : FieldType → Value → Option (List Nat)
  | FieldType.BOOLEAN, v => some [if v.truthy then 1 else 0]
  | FieldType.FLOAT, Value.float bits =>
      if bits < 18446744073709551616 then some (beBytes 8 bits) else none
  | FieldType.FLOAT, _ => none
  | FieldType.INTEGER, Value.int i =>
      if -9223372036854775808 ≤ i ∧ i < 9223372036854775808 then
        some (beBytes 8 (i % 18446744073709551616).toNat)
      else none
  | FieldType.INTEGER, Value.bool b => some (beBytes 8 (if b then 1 else 0))
  | FieldType.INTEGER, _ => none
  | FieldType.VARCHAR, Value.str s =>
      if s.length ≤ 65535 then some (beBytes 2 s.length ++ s) else none
  | FieldType.VARCHAR, _ => none

/-- From row_class.py `Row.from_bytes`, one value under a declared type
(`struct.unpack_from` with the same formats; reading past the end of the
data raises `struct.error`, modelled `none`). -/
def decodeValue : FieldType → List Nat → Option (Value × List Nat)
  | FieldType.BOOLEAN, [] => none
  | FieldType.BOOLEAN, b :: r => some (Value.bool (b != 0), r)
  | FieldType.FLOAT, data =>
      (readBytes 8 data).map fun p => (Value.float (beVal p.1), p.2)
  | FieldType.INTEGER, data =>
      (readBytes 8 data).map fun p => (Value.int (sInt 8 (beVal p.1)), p.2)
  | FieldType.VARCHAR, data =>
      (readBytes 2 data).bind fun p =>
        (readBytes (beVal p.1) p.2).map fun q => (Value.str q.1, q.2)

namespace RnD

/-- `Row` from src/R&D/row_class.py: acts as the tuple of its values. -/
abbrev Row := List Value

/-- From row_class.py `Row.to_bytes`, one schema field: a nullable field
whose value is `None` becomes a single `0` presence byte; otherwise a
nullable field gets a `1` presence byte before the encoded value, and a
non-nullable field has no presence byte. -/
def encodeField (f : SchemaField) (v : Value) : Option (List Nat) :=
  if v = Value.null ∧ f.nullable then some [0]
  else if f.nullable then (encodeValue f.ftype v).map fun e => 1 :: e
  else encodeValue f.ftype v

/-- From row_class.py `Row.to_bytes`: fields are encoded in declared schema
order, `self[i]` raising `IndexError` (modelled `none`) when the row is
shorter than the schema; row values beyond the schema length are silently
ignored, as in the source. -/
def encodeFields : List SchemaField → List Value → Option (List Nat)
  | [], _ => some []
  | _ :: _, [] => none
  | f :: fs, v :: vs =>
      (encodeField f v).bind fun e => (encodeFields fs vs).map fun es => e ++ es

/-- From row_class.py `Row.to_bytes` (the schema is `cls._schema`, passed
here explicitly). -/
def Row.to_bytes (schema : List SchemaField) (r : Row) : Option (List Nat) :=
  encodeFields schema r

/-- From row_class.py `Row.from_bytes`, one schema field: a nullable field
reads a presence byte first; `0` decodes to `None` and any non-zero value
(`if not has_value`) means present. -/
def decodeField (f : SchemaField) (data : List Nat) : Option (Value × List Nat) :=
  if f.nullable then
    match data with
    | [] => none
    | b :: r => if b = 0 then some (Value.null, r) else decodeValue f.ftype r
  else decodeValue f.ftype data

/-- From row_class.py `Row.from_bytes`: fields decoded strictly in schema
order; bytes after the last schema field are ignored, as in the source. -/
def decodeFields : List SchemaField → List Nat → Option (List Value)
  | [], _ => some []
  | f :: fs, data =>
      (decodeField f data).bind fun p =>
        (decodeFields fs p.2).map fun vs => p.1 :: vs

/-- From row_class.py `Row.from_bytes` (the schema is `cls._schema`). -/
def Row.from_bytes (schema : List SchemaField) (data : List Nat) : Option Row :=
  decodeFields schema data

end RnD

/-- A value conforms to a declared field type (spec section 3): the runtime
type matches, `INTEGER` lies in the signed 64-bit range, a `VARCHAR`
value's UTF-8 byte length is at most 65535, and a float's bit pattern has
64 bits. -/
def conformsValue : FieldType → Value → Bool
  | FieldType.BOOLEAN, Value.bool _ => true
  | FieldType.INTEGER, Value.int i =>
      decide (-9223372036854775808 ≤ i ∧ i < 9223372036854775808)
  | FieldType.FLOAT, Value.float bits => decide (bits < 18446744073709551616)
  | FieldType.VARCHAR, Value.str s => decide (s.length ≤ 65535)
  | _, _ => false

/-- A row conforms to a schema (spec section 3): exact arity, values in
field order, `None` only in nullable fields, and each present value
conforming to its declared type. -/
def conforms : List SchemaField → List Value → Bool
  | [], [] => true
  | f :: fs, v :: vs =>
      ((v == Value.null) && f.nullable || conformsValue f.ftype v) && conforms fs vs
  | _, _ => false

/-- A frame as written to the log: flags byte, 4-byte big-endian payload
length, then the payload. -/
def mkFrame (flags : Nat) (payload : List Nat) : List Nat :=
  flags :: beBytes 4 payload.length ++ payload

/-- Modelled from the spec: the `get`/`set`/`delete`/KeyDir machinery of
spec sections 3, 4.3 and 4.4, which `__setitem__`/`__getitem__` in
engine.py reference but which is absent from src (spec section 9 defines
its required behaviour from the BitCask design).  The state is the log
file's bytes plus the KeyDir: an in-memory map from key to
`(payload offset, payload size)` of the key's most recent live frame,
newest entry first (lookups take the first match). -/
structure SpecState where
  file : List Nat
  keyDir : List (List Nat × Nat × Nat)

/-- Modelled from the spec: KeyDir lookup — the first (most recent) entry
for the key, `none` for a miss (`KeyNotFound`). -/
def kdLookup : List (List Nat × Nat × Nat) → List Nat → Option (Nat × Nat)
  | [], _ => none
  | e :: rest, k => if e.1 = k then some e.2 else kdLookup rest k

/-- Modelled from the spec: KeyDir removal of every entry for a key. -/
def kdRemove (kd : List (List Nat × Nat × Nat)) (k : List Nat) :
    List (List Nat × Nat × Nat) :=
  kd.filter fun e => !(e.1 == k)

/-- Modelled from the spec (section 4.4 `set`): encode the row with the
Record Codec, append a frame with flags 0, then upsert the KeyDir with the
new frame's payload location.  Encoding failure (`none`) models a raised
`SchemaMismatch` with the state untouched. -/
def specSet (st : SpecState) (k : List Nat) (v : List Value) :
    Option SpecState :=
  (packb v).bind fun payload =>
    if payload.length < 4294967296 then
      some { file := st.file ++ mkFrame 0 payload,
             keyDir := (k, st.file.length + 5, payload.length) :: st.keyDir }
    else none

/-- Modelled from the spec (section 4.4 `get`): KeyDir lookup, then read
exactly the stored payload region (`read_at`) and decode it; `none` models
`KeyNotFound` (or `CorruptRecord` on a failed decode). -/
def specGet (st : SpecState) (k : List Nat) : Option (List Value) :=
  (kdLookup st.keyDir k).bind fun loc =>
    unpackb ((st.file.drop loc.1).take loc.2)

/-- Modelled from the spec (section 4.4 `delete`): append a tombstone frame
(flags bit 0 set, payload carrying the key) and remove the KeyDir entry. -/
def specDelete (st : SpecState) (k : List Nat) : SpecState :=
  { file := st.file ++ mkFrame 1 k, keyDir := kdRemove st.keyDir k }

/-- One mutating engine operation. -/
inductive SpecOp where
  | set (k : List Nat) (v : List Value)
  | del (k : List Nat)

/-- The key an operation touches. -/
def SpecOp.key : SpecOp → List Nat
  | SpecOp.set k _ => k
  | SpecOp.del k => k

/-- Apply one operation; a failed `set` raises, leaving the state as it
was. -/
def specApply (st : SpecState) : SpecOp → SpecState
  | SpecOp.set k v => (specSet st k v).getD st
  | SpecOp.del k => specDelete st k

/-- Apply a sequence of operations in order. -/
def specRun (st : SpecState) : List SpecOp → SpecState
  | [] => st
  | op :: ops => specRun (specApply st op) ops

theorem length_beBytes (w v : Nat) : (beBytes w v).length = w := by
  induction w generalizing v with
  | zero => rfl
  | succ w ih => simp [beBytes, ih]

theorem beVal_append_singleton (bs : List Nat) (b : Nat) :
    beVal (bs ++ [b]) = beVal bs * 256 + b := by
  simp [beVal, List.foldl_append]

theorem beVal_beBytes (w v : Nat) : beVal (beBytes w v) = v % 256 ^ w := by
  induction w generalizing v with
  | zero => simp [beBytes, beVal, Nat.mod_one]
  | succ w ih =>
    rw [beBytes, beVal_append_singleton, ih]
    have h1 : (256 : Nat) ^ (w + 1) = 256 * 256 ^ w := by ring
    rw [h1]
    have h2 : v % (256 * 256 ^ w) / 256 = v / 256 % 256 ^ w :=
      Nat.mod_mul_right_div_self v 256 (256 ^ w)
    have h3 : v % (256 * 256 ^ w) % 256 = v % 256 :=
      Nat.mod_mod_of_dvd v ⟨256 ^ w, rfl⟩
    have h4 := Nat.div_add_mod (v % (256 * 256 ^ w)) 256
    omega

theorem readBytes_exact (s rest : List Nat) :
    readBytes s.length (s ++ rest) = some (s, rest) := by
  simp [readBytes, List.take_left, List.drop_left]

theorem beVal_beBytes_of_lt {w v : Nat} (h : v < 256 ^ w) :
    beVal (beBytes w v) = v := by
  rw [beVal_beBytes, Nat.mod_eq_of_lt h]

theorem readBytes_of_length {n : Nat} (s rest : List Nat) (h : s.length = n) :
    readBytes n (s ++ rest) = some (s, rest) := by
  subst h; exact readBytes_exact s rest

theorem unpackScalar_tag204 (u : Nat) (hu : u < 256) (rest : List Nat) :
    unpackScalar (204 :: beBytes 1 u ++ rest) = some (Value.int u, rest) := by
  rw [unpackScalar.eq_def]
  norm_num
  rw [readBytes_of_length _ _ (length_beBytes 1 u)]
  exact ⟨beBytes 1 u, rfl, beVal_beBytes_of_lt (by simpa using hu)⟩

theorem unpackScalar_tag205 (u : Nat) (hu : u < 65536) (rest : List Nat) :
    unpackScalar (205 :: beBytes 2 u ++ rest) = some (Value.int u, rest) := by
  rw [unpackScalar.eq_def]
  norm_num
  rw [readBytes_of_length _ _ (length_beBytes 2 u)]
  exact ⟨beBytes 2 u, rfl, beVal_beBytes_of_lt (by simpa using hu)⟩

theorem unpackScalar_tag206 (u : Nat) (hu : u < 4294967296) (rest : List Nat) :
    unpackScalar (206 :: beBytes 4 u ++ rest) = some (Value.int u, rest) := by
  rw [unpackScalar.eq_def]
  norm_num
  rw [readBytes_of_length _ _ (length_beBytes 4 u)]
  exact ⟨beBytes 4 u, rfl, beVal_beBytes_of_lt (by simpa using hu)⟩

theorem unpackScalar_tag207 (u : Nat) (hu : u < 18446744073709551616) (rest : List Nat) :
    unpackScalar (207 :: beBytes 8 u ++ rest) = some (Value.int u, rest) := by
  rw [unpackScalar.eq_def]
  norm_num
  rw [readBytes_of_length _ _ (length_beBytes 8 u)]
  exact ⟨beBytes 8 u, rfl, beVal_beBytes_of_lt (by simpa using hu)⟩

theorem unpackScalar_tag203 (u : Nat) (hu : u < 18446744073709551616) (rest : List Nat) :
    unpackScalar (203 :: beBytes 8 u ++ rest) = some (Value.float u, rest) := by
  rw [unpackScalar.eq_def]
  norm_num
  rw [readBytes_of_length _ _ (length_beBytes 8 u)]
  exact ⟨beBytes 8 u, rfl, beVal_beBytes_of_lt (by simpa using hu)⟩

theorem unpackScalar_tag208 (u : Nat) (hu : u < 256) (rest : List Nat) :
    unpackScalar (208 :: beBytes 1 u ++ rest) = some (Value.int (sInt 1 u), rest) := by
  rw [unpackScalar.eq_def]
  norm_num
  rw [readBytes_of_length _ _ (length_beBytes 1 u)]
  exact ⟨beBytes 1 u, rfl, by rw [beVal_beBytes_of_lt (by simpa using hu)]⟩

theorem unpackScalar_tag209 (u : Nat) (hu : u < 65536) (rest : List Nat) :
    unpackScalar (209 :: beBytes 2 u ++ rest) = some (Value.int (sInt 2 u), rest) := by
  rw [unpackScalar.eq_def]
  norm_num
  rw [readBytes_of_length _ _ (length_beBytes 2 u)]
  exact ⟨beBytes 2 u, rfl, by rw [beVal_beBytes_of_lt (by simpa using hu)]⟩

theorem unpackScalar_tag210 (u : Nat) (hu : u < 4294967296) (rest : List Nat) :
    unpackScalar (210 :: beBytes 4 u ++ rest) = some (Value.int (sInt 4 u), rest) := by
  rw [unpackScalar.eq_def]
  norm_num
  rw [readBytes_of_length _ _ (length_beBytes 4 u)]
  exact ⟨beBytes 4 u, rfl, by rw [beVal_beBytes_of_lt (by simpa using hu)]⟩

theorem unpackScalar_tag211 (u : Nat) (hu : u < 18446744073709551616) (rest : List Nat) :
    unpackScalar (211 :: beBytes 8 u ++ rest) = some (Value.int (sInt 8 u), rest) := by
  rw [unpackScalar.eq_def]
  norm_num
  rw [readBytes_of_length _ _ (length_beBytes 8 u)]
  exact ⟨beBytes 8 u, rfl, by rw [beVal_beBytes_of_lt (by simpa using hu)]⟩

theorem unpackScalar_fixstr (s rest : List Nat) (h : s.length ≤ 31) :
    unpackScalar ((160 + s.length) :: (s ++ rest)) = some (Value.str s, rest) := by
  rw [unpackScalar.eq_2]
  rw [if_neg (by omega), if_neg (by omega), if_pos (by omega)]
  have hL : 160 + s.length - 160 = s.length := by omega
  rw [hL, readBytes_of_length _ _ rfl]
  rfl

theorem unpackScalar_tag217 (s rest : List Nat) (h : s.length < 256) :
    unpackScalar (217 :: beBytes 1 s.length ++ (s ++ rest)) =
      some (Value.str s, rest) := by
  rw [unpackScalar.eq_def]
  norm_num
  rw [readBytes_of_length _ _ (length_beBytes 1 s.length)]
  rw [Option.some_bind, beVal_beBytes_of_lt (by simpa using h),
    readBytes_of_length _ _ rfl]
  rfl

theorem unpackScalar_tag218 (s rest : List Nat) (h : s.length < 65536) :
    unpackScalar (218 :: beBytes 2 s.length ++ (s ++ rest)) =
      some (Value.str s, rest) := by
  rw [unpackScalar.eq_def]
  norm_num
  rw [readBytes_of_length _ _ (length_beBytes 2 s.length)]
  rw [Option.some_bind, beVal_beBytes_of_lt (by simpa using h),
    readBytes_of_length _ _ rfl]
  rfl

theorem unpackScalar_tag219 (s rest : List Nat) (h : s.length < 4294967296) :
    unpackScalar (219 :: beBytes 4 s.length ++ (s ++ rest)) =
      some (Value.str s, rest) := by
  rw [unpackScalar.eq_def]
  norm_num
  rw [readBytes_of_length _ _ (length_beBytes 4 s.length)]
  rw [Option.some_bind, beVal_beBytes_of_lt (by simpa using h),
    readBytes_of_length _ _ rfl]
  rfl

theorem unpackScalar_pos_fixint (u : Nat) (hu : u ≤ 127) (rest : List Nat) :
    unpackScalar (u :: rest) = some (Value.int u, rest) := by
  rw [unpackScalar.eq_2]
  rw [if_pos (by omega)]

theorem unpackScalar_neg_fixint (b : Nat) (h1 : 224 ≤ b) (h2 : b ≤ 255)
    (rest : List Nat) :
    unpackScalar (b :: rest) = some (Value.int ((b : Int) - 256), rest) := by
  have h128 : ¬ b < 128 := by omega
  have h160 : ¬ b < 160 := by omega
  have h192 : ¬ b < 192 := by omega
  have hne : ∀ m : Nat, m < 224 → ¬ b = m := fun m hm he => by omega
  rw [unpackScalar.eq_2, if_neg h128, if_neg h160, if_neg h192,
    if_neg (hne 192 (by norm_num)), if_neg (hne 194 (by norm_num)),
    if_neg (hne 195 (by norm_num)), if_neg (hne 203 (by norm_num)),
    if_neg (hne 204 (by norm_num)), if_neg (hne 205 (by norm_num)),
    if_neg (hne 206 (by norm_num)), if_neg (hne 207 (by norm_num)),
    if_neg (hne 208 (by norm_num)), if_neg (hne 209 (by norm_num)),
    if_neg (hne 210 (by norm_num)), if_neg (hne 211 (by norm_num)),
    if_neg (hne 217 (by norm_num)), if_neg (hne 218 (by norm_num)),
    if_neg (hne 219 (by norm_num)), if_pos (by omega)]

theorem unpackScalar_packScalar {v : Value} {out : List Nat}
    (h : packScalar v = some out) (rest : List Nat) :
    unpackScalar (out ++ rest) = some (v, rest) := by
  cases v with
  | null =>
    simp only [packScalar, Option.some.injEq] at h
    subst h
    rw [unpackScalar.eq_def]
    norm_num
  | bool b =>
    cases b <;>
      (simp only [packScalar, Option.some.injEq] at h; subst h;
        rw [unpackScalar.eq_def]; norm_num)
  | float bits =>
    simp only [packScalar] at h
    split_ifs at h with hb
    injection h with h
    subst h
    exact unpackScalar_tag203 bits hb rest
  | int i =>
    simp only [packScalar, packInt] at h
    split_ifs at h with h0 h1 h2 h3 h4 h5 h6 h7 h8 h9 h10
    · injection h with h
      subst h
      rw [List.singleton_append, unpackScalar_pos_fixint _ h1]
      simp [Int.toNat_of_nonneg h0]
    · injection h with h
      subst h
      rw [unpackScalar_tag204 _ (by omega) rest]
      simp [Int.toNat_of_nonneg h0]
    · injection h with h
      subst h
      rw [unpackScalar_tag205 _ (by omega) rest]
      simp [Int.toNat_of_nonneg h0]
    · injection h with h
      subst h
      rw [unpackScalar_tag206 _ (by omega) rest]
      simp [Int.toNat_of_nonneg h0]
    · injection h with h
      subst h
      rw [unpackScalar_tag207 _ (by omega) rest]
      simp [Int.toNat_of_nonneg h0]
    · injection h with h
      subst h
      rw [List.singleton_append, unpackScalar_neg_fixint _ (by omega) (by omega)]
      simp only [Option.some.injEq, Prod.mk.injEq, Value.int.injEq, and_true]
      omega
    · injection h with h
      subst h
      rw [unpackScalar_tag208 _ (by omega) rest]
      simp only [Option.some.injEq, Prod.mk.injEq, Value.int.injEq, and_true]
      norm_num [sInt]
      split_ifs <;> omega
    · injection h with h
      subst h
      rw [unpackScalar_tag209 _ (by omega) rest]
      simp only [Option.some.injEq, Prod.mk.injEq, Value.int.injEq, and_true]
      norm_num [sInt]
      split_ifs <;> omega
    · injection h with h
      subst h
      rw [unpackScalar_tag210 _ (by omega) rest]
      simp only [Option.some.injEq, Prod.mk.injEq, Value.int.injEq, and_true]
      norm_num [sInt]
      split_ifs <;> omega
    · injection h with h
      subst h
      rw [unpackScalar_tag211 _ (by omega) rest]
      simp only [Option.some.injEq, Prod.mk.injEq, Value.int.injEq, and_true]
      norm_num [sInt]
      split_ifs <;> omega
  | str s =>
    simp only [packScalar, packStr] at h
    split_ifs at h with h1 h2 h3 h4
    · injection h with h
      subst h
      rw [List.cons_append]
      exact unpackScalar_fixstr s rest h1
    · injection h with h
      subst h
      rw [List.append_assoc]
      exact unpackScalar_tag217 s rest (by omega)
    · injection h with h
      subst h
      rw [List.append_assoc]
      exact unpackScalar_tag218 s rest (by omega)
    · injection h with h
      subst h
      rw [List.append_assoc]
      exact unpackScalar_tag219 s rest (by omega)

theorem unpackScalars_packScalars {vs : List Value} {out : List Nat}
    (h : packScalars vs = some out) (rest : List Nat) :
    unpackScalars vs.length (out ++ rest) = some (vs, rest) := by
  induction vs generalizing out rest with
  | nil =>
    simp only [packScalars, Option.some.injEq] at h
    subst h
    simp [unpackScalars]
  | cons v vs ih =>
    simp only [packScalars, Option.bind_eq_some, Option.map_eq_some'] at h
    obtain ⟨e, he, es, hes, heq⟩ := h
    subst heq
    rw [List.length_cons, unpackScalars, List.append_assoc,
      unpackScalar_packScalar he, Option.some_bind, ih hes rest]
    rfl

theorem unpackb_packb {vs : List Value} {out : List Nat} (h : packb vs = some out) :
    unpackb out = some vs := by
  simp only [packb, Option.bind_eq_some, Option.map_eq_some'] at h
  obtain ⟨hd, hhd, es, hes, heq⟩ := h
  subst heq
  have hu := unpackScalars_packScalars hes ([] : List Nat)
  rw [List.append_nil] at hu
  simp only [arrayHeader] at hhd
  split_ifs at hhd with a1 a2 a3
  · injection hhd with hhd
    subst hhd
    rw [unpackb, List.singleton_append, parseArrayHeader.eq_2,
      if_pos (by omega)]
    have hn : 144 + vs.length - 144 = vs.length := by omega
    rw [Option.some_bind, hn, hu]
    simp
  · injection hhd with hhd
    subst hhd
    rw [unpackb, List.cons_append, parseArrayHeader.eq_2,
      if_neg (by omega), if_pos rfl,
      readBytes_of_length _ _ (length_beBytes 2 vs.length)]
    rw [Option.map_some', Option.some_bind,
      beVal_beBytes_of_lt (by omega : vs.length < 256 ^ 2), hu]
    simp
  · injection hhd with hhd
    subst hhd
    rw [unpackb, List.cons_append, parseArrayHeader.eq_2,
      if_neg (by omega), if_neg (by omega), if_pos rfl,
      readBytes_of_length _ _ (length_beBytes 4 vs.length)]
    rw [Option.map_some', Option.some_bind,
      beVal_beBytes_of_lt (by omega : vs.length < 256 ^ 4), hu]
    simp

theorem decodeValue_encodeValue {t : FieldType} {v : Value} {e : List Nat}
    (hc : conformsValue t v = true) (he : encodeValue t v = some e)
    (rest : List Nat) : decodeValue t (e ++ rest) = some (v, rest) := by
  cases t with
  | BOOLEAN =>
    cases v with
    | bool b =>
      simp only [encodeValue, Option.some.injEq] at he
      subst he
      cases b <;> simp [Value.truthy, decodeValue]
    | null => exact absurd hc (by simp [conformsValue])
    | int i => exact absurd hc (by simp [conformsValue])
    | float bits => exact absurd hc (by simp [conformsValue])
    | str s => exact absurd hc (by simp [conformsValue])
  | FLOAT =>
    cases v with
    | float bits =>
      simp only [encodeValue] at he
      split_ifs at he with hb
      injection he with he
      subst he
      rw [decodeValue, readBytes_of_length _ _ (length_beBytes 8 bits),
        Option.map_some', beVal_beBytes_of_lt (by omega)]
    | null => exact absurd hc (by simp [conformsValue])
    | int i => exact absurd hc (by simp [conformsValue])
    | bool b => exact absurd hc (by simp [conformsValue])
    | str s => exact absurd hc (by simp [conformsValue])
  | INTEGER =>
    cases v with
    | int i =>
      simp only [conformsValue, decide_eq_true_eq] at hc
      simp only [encodeValue] at he
      split_ifs at he with hb
      injection he with he
      subst he
      rw [decodeValue, readBytes_of_length _ _ (length_beBytes 8 _),
        Option.map_some', beVal_beBytes_of_lt (by omega)]
      have hmod : (i % 18446744073709551616).toNat = (i % 18446744073709551616) := by
        have : (0 : Int) ≤ i % 18446744073709551616 := Int.emod_nonneg i (by norm_num)
        omega
      simp only [Option.some.injEq, Prod.mk.injEq, Value.int.injEq, and_true]
      norm_num [sInt]
      split_ifs with hs <;> omega
    | null => exact absurd hc (by simp [conformsValue])
    | bool b => exact absurd hc (by simp [conformsValue])
    | float bits => exact absurd hc (by simp [conformsValue])
    | str s => exact absurd hc (by simp [conformsValue])
  | VARCHAR =>
    cases v with
    | str s =>
      simp only [encodeValue] at he
      split_ifs at he with hb
      injection he with he
      subst he
      rw [List.append_assoc, decodeValue,
        readBytes_of_length _ _ (length_beBytes 2 _), Option.some_bind,
        beVal_beBytes_of_lt (by omega), readBytes_of_length _ _ rfl]
      rfl
    | null => exact absurd hc (by simp [conformsValue])
    | bool b => exact absurd hc (by simp [conformsValue])
    | int i => exact absurd hc (by simp [conformsValue])
    | float bits => exact absurd hc (by simp [conformsValue])

theorem decodeField_encodeField {f : SchemaField} {v : Value} {e : List Nat}
    (hc : ((v == Value.null) && f.nullable || conformsValue f.ftype v) = true)
    (he : RnD.encodeField f v = some e) (rest : List Nat) :
    RnD.decodeField f (e ++ rest) = some (v, rest) := by
  by_cases hv : v = Value.null
  · subst hv
    have hnull : conformsValue f.ftype Value.null = false := by
      cases f.ftype <;> rfl
    simp only [hnull, Bool.or_false, beq_self_eq_true, Bool.true_and] at hc
    simp only [RnD.encodeField, hc, and_true, if_pos rfl] at he
    injection he with he
    subst he
    simp [RnD.decodeField, hc]
  · have hcv : conformsValue f.ftype v = true := by
      rcases Bool.or_eq_true_iff.mp hc with h | h
      · exact absurd (of_decide_eq_true (Bool.and_eq_true_iff.mp h).1) hv
      · exact h
    by_cases hn : f.nullable
    · simp only [RnD.encodeField, hv, false_and, if_false, hn, if_true,
        Option.map_eq_some'] at he
      obtain ⟨e0, he0, heq⟩ := he
      subst heq
      rw [List.cons_append, RnD.decodeField, if_pos hn]
      rw [if_neg (by omega)]
      exact decodeValue_encodeValue hcv he0 rest
    · simp only [RnD.encodeField, hv, false_and, if_false, hn, if_false] at he
      rw [RnD.decodeField.eq_def, if_neg hn]
      exact decodeValue_encodeValue hcv he rest

theorem decodeFields_encodeFields {schema : List SchemaField}
    {row : List Value} {out : List Nat}
    (hc : conforms schema row = true)
    (he : RnD.encodeFields schema row = some out) (rest : List Nat) :
    RnD.decodeFields schema (out ++ rest) = some row := by
  induction schema generalizing row out rest with
  | nil =>
    cases row with
    | nil =>
      simp only [RnD.encodeFields, Option.some.injEq] at he
      subst he
      simp [RnD.decodeFields]
    | cons v vs => exact absurd hc (by simp [conforms])
  | cons f fs ih =>
    cases row with
    | nil => exact absurd he (by simp [RnD.encodeFields])
    | cons v vs =>
      simp only [conforms, Bool.and_eq_true] at hc
      simp only [RnD.encodeFields, Option.bind_eq_some, Option.map_eq_some'] at he
      obtain ⟨e, he1, es, hes, heq⟩ := he
      subst heq
      rw [RnD.decodeFields, List.append_assoc,
        decodeField_encodeField hc.1 he1 (es ++ rest), Option.some_bind,
        ih hc.2 hes rest]
      rfl

theorem encodeFields_of_conforms {schema : List SchemaField} {row : List Value}
    (hc : conforms schema row = true) :
    ∃ out, RnD.encodeFields schema row = some out := by
  induction schema generalizing row with
  | nil =>
    cases row with
    | nil => exact ⟨[], rfl⟩
    | cons v vs => exact absurd hc (by simp [conforms])
  | cons f fs ih =>
    cases row with
    | nil => exact absurd hc (by simp [conforms])
    | cons v vs =>
      simp only [conforms, Bool.and_eq_true] at hc
      obtain ⟨es, hes⟩ := ih hc.2
      have hfield : ∃ e, RnD.encodeField f v = some e := by
        by_cases hv : v = Value.null
        · subst hv
          have hnull : conformsValue f.ftype Value.null = false := by
            cases f.ftype <;> rfl
          have h1 := hc.1
          simp only [hnull, Bool.or_false, beq_self_eq_true, Bool.true_and] at h1
          exact ⟨[0], by simp [RnD.encodeField, h1]⟩
        · have hcv : conformsValue f.ftype v = true := by
            rcases Bool.or_eq_true_iff.mp hc.1 with h | h
            · exact absurd (of_decide_eq_true (Bool.and_eq_true_iff.mp h).1) hv
            · exact h
          have henc : ∃ e0, encodeValue f.ftype v = some e0 := by
            cases t : f.ftype <;> cases v <;>
              simp_all [conformsValue, encodeValue] <;> omega
          obtain ⟨e0, he0⟩ := henc
          by_cases hn : f.nullable
          · exact ⟨1 :: e0, by simp [RnD.encodeField, hv, hn, he0]⟩
          · exact ⟨e0, by simp [RnD.encodeField, hv, hn, he0]⟩
      obtain ⟨e, he⟩ := hfield
      exact ⟨e ++ es, by simp [RnD.encodeFields, he, hes]⟩

theorem beBytes_four (v : Nat) :
    beBytes 4 v =
      [v / 16777216 % 256, v / 65536 % 256, v / 256 % 256, v % 256] := by
  simp [beBytes, Nat.div_div_eq_div_mul]

theorem take_five (x1 x2 x3 x4 x5 : Nat) (l : List Nat) :
    (x1 :: x2 :: x3 :: x4 :: x5 :: l).take 5 = [x1, x2, x3, x4, x5] := rfl

/-- C6: for every row whose MessagePack payload packs and fits a 4-byte
length, `Record.Row.to_bytes` is wire-exact — one flags byte with value 0
(all reserved bits zero on a non-tombstone write), a 4-byte big-endian
unsigned length equal to the payload's byte length, then exactly the
payload — and the scan reader's `struct.unpack(">BI")` of the first 5
bytes recovers flags 0 and that length without decoding the payload. -/
theorem to_bytes_frame_header_wire_format (r : List Value) (payload : List Nat)
    (hp : packb r = some payload) (hlen : payload.length < 4294967296) :
    Record.Row.to_bytes r = some (0 :: beBytes 4 payload.length ++ payload) ∧
    parseHeader ((0 :: beBytes 4 payload.length ++ payload).take 5) =
      some (0, payload.length) := by
  constructor
  · simp [Record.Row.to_bytes, hp, hlen]
  · rw [beBytes_four]
    simp only [List.cons_append]
    rw [take_five]
    show some (0, beVal [payload.length / 16777216 % 256, payload.length / 65536 % 256,
      payload.length / 256 % 256, payload.length % 256]) = some (0, payload.length)
    rw [← beBytes_four, beVal_beBytes_of_lt (by omega)]

theorem to_bytes_frame_header_wire_format_witness :
    Record.Row.to_bytes [Value.int 5] =
        some (0 :: beBytes 4 ([145, 5] : List Nat).length ++ [145, 5]) ∧
    parseHeader ((0 :: beBytes 4 ([145, 5] : List Nat).length ++ [145, 5]).take 5) =
      some (0, ([145, 5] : List Nat).length) :=
  to_bytes_frame_header_wire_format [Value.int 5] [145, 5] (by decide) (by decide)

/-- C1 counterexample: the self-describing variant's literal round trip
fails — `Record.Row.from_bytes` (`unpackb`) applied to the full
`Record.Row.to_bytes` output (which starts with the 5-byte frame header)
does not return the original row. -/
theorem record_round_trip_fails_on_header :
    ((Record.Row.to_bytes [Value.int 1]).bind Record.Row.from_bytes) ≠
      some [Value.int 1] := by decide

/-- C1 (amended): round trip for both codec variants.  For the fixed-width
variant (row_class.py), every schema-conforming row encodes and decodes
back unchanged.  For the self-describing variant (record.py),
`Row.from_bytes` recovers the row from the payload portion of the
`Row.to_bytes` output — the bytes after the 5-byte frame header that
`to_bytes` prepends (which is exactly what scan hands to `from_bytes`). -/
theorem codec_round_trip :
    (∀ (schema : List SchemaField) (row : List Value),
        conforms schema row = true →
        ∃ bs, RnD.Row.to_bytes schema row = some bs ∧
          RnD.Row.from_bytes schema bs = some row) ∧
    (∀ (row : List Value) (bs : List Nat),
        Record.Row.to_bytes row = some bs →
        Record.Row.from_bytes (bs.drop 5) = some row) := by
  constructor
  · intro schema row hc
    obtain ⟨out, hout⟩ := encodeFields_of_conforms hc
    refine ⟨out, hout, ?_⟩
    have h := decodeFields_encodeFields hc hout []
    rw [List.append_nil] at h
    exact h
  · intro row bs hb
    simp only [Record.Row.to_bytes, Option.bind_eq_some] at hb
    obtain ⟨payload, hp, hb⟩ := hb
    split_ifs at hb with hl
    injection hb with hb
    subst hb
    have hdrop : ((0 :: beBytes 4 payload.length ++ payload) : List Nat).drop 5 =
        payload := by
      rw [beBytes_four]
      rfl
    rw [hdrop]
    exact unpackb_packb hp

theorem codec_round_trip_witness :
    (∃ bs,
        RnD.Row.to_bytes [⟨"id", FieldType.INTEGER, false⟩] [Value.int 7] =
          some bs ∧
        RnD.Row.from_bytes [⟨"id", FieldType.INTEGER, false⟩] bs =
          some [Value.int 7]) ∧
    Record.Row.from_bytes (([0, 0, 0, 0, 2, 145, 7] : List Nat).drop 5) =
      some [Value.int 7] :=
  ⟨codec_round_trip.1 [⟨"id", FieldType.INTEGER, false⟩] [Value.int 7] (by decide),
    codec_round_trip.2 [Value.int 7] [0, 0, 0, 0, 2, 145, 7] (by decide)⟩

/-- C8: fixed-width `VARCHAR` boundary — a value of exactly 65535 UTF-8
bytes encodes and decodes back to the same string, while one of 65536
bytes fails at encode time (`struct.pack(">H", 65536)` raises a
length-overflow `struct.error`), so no frame payload is produced. -/
theorem varchar_length_boundary (s t : List Nat)
    (hs : s.length = 65535) (ht : t.length = 65536) :
    (RnD.Row.to_bytes [⟨"v", FieldType.VARCHAR, false⟩] [Value.str s] =
        some (beBytes 2 s.length ++ s) ∧
      RnD.Row.from_bytes [⟨"v", FieldType.VARCHAR, false⟩]
          (beBytes 2 s.length ++ s) = some [Value.str s]) ∧
    RnD.Row.to_bytes [⟨"v", FieldType.VARCHAR, false⟩] [Value.str t] = none := by
  refine ⟨⟨?_, ?_⟩, ?_⟩
  · simp [RnD.Row.to_bytes, RnD.encodeFields, RnD.encodeField, encodeValue, hs]
  · have h2 : readBytes 2 (beBytes 2 s.length ++ s) =
        some (beBytes 2 s.length, s) :=
      readBytes_of_length _ _ (length_beBytes 2 _)
    have h3 : readBytes s.length s = some (s, []) := by
      simpa using readBytes_of_length s [] rfl
    simp [RnD.Row.from_bytes, RnD.decodeFields, RnD.decodeField, decodeValue, h2,
      h3, beVal_beBytes_of_lt (show s.length < 256 ^ 2 by omega)]
  · simp [RnD.Row.to_bytes, RnD.encodeFields, RnD.encodeField, encodeValue, ht]

theorem varchar_length_boundary_witness :
    (RnD.Row.to_bytes [⟨"v", FieldType.VARCHAR, false⟩]
          [Value.str (List.replicate 65535 97)] =
        some (beBytes 2 (List.replicate 65535 97).length ++
          List.replicate 65535 97) ∧
      RnD.Row.from_bytes [⟨"v", FieldType.VARCHAR, false⟩]
          (beBytes 2 (List.replicate 65535 97).length ++ List.replicate 65535 97) =
        some [Value.str (List.replicate 65535 97)]) ∧
    RnD.Row.to_bytes [⟨"v", FieldType.VARCHAR, false⟩]
        [Value.str (List.replicate 65536 97)] = none :=
  varchar_length_boundary (List.replicate 65535 97) (List.replicate 65536 97)
    (List.length_replicate 65535 97) (List.length_replicate 65536 97)

/-- C7 (code evaluated at the failing input): the engine's schema has arity
8, yet `append` of the arity-1 record `(1,)` performs no schema check at
all — the check in `Row.__new__` is commented out and `append`'s schema
test is only a comment — and a frame is written to the log. -/
theorem append_without_schema_check :
    engineSchema.length = 8 ∧
    [Value.int 1].length ≠ engineSchema.length ∧
    HadroDB.append (hadroOpen []) (RecordInput.sequence [Value.int 1]) =
      some ({ file := [0, 0, 0, 0, 2, 145, 1], write_position := 7,
              key_dir := [] }, none) := by
  decide

/-- C9 counterexample: `append` does not return the byte offset at which
the write began — the first write into an empty log begins at offset 0,
but `append` always returns Python `None` (its body has no return
statement), not that offset. -/
theorem append_returns_no_offset :
    (HadroDB.append (hadroOpen []) (RecordInput.sequence [Value.int 1])).map
        Prod.snd ≠ some (some 0) := by
  decide

/-- C9 (amended): whenever the row encodes, `append` writes the frame's
bytes exactly at the current end of the file, advances `write_position` by
exactly the frame length (5-byte header plus payload), and returns Python
`None` rather than the byte offset at which the write began. -/
theorem append_writes_exact_frame (db : HadroDB) (vs : List Value)
    (payload : List Nat) (hp : packb vs = some payload)
    (hlen : payload.length < 4294967296) :
    HadroDB.append db (RecordInput.sequence vs) =
      some ({ file := db.file ++ (0 :: beBytes 4 payload.length ++ payload),
              write_position := db.write_position + (5 + payload.length),
              key_dir := db.key_dir }, none) := by
  have hL : ((0 :: beBytes 4 payload.length ++ payload) : List Nat).length =
      5 + payload.length := by
    simp only [List.cons_append, List.length_cons, List.length_append,
      length_beBytes]
    omega
  simp only [HadroDB.append, Record.Row.to_bytes, hp, Option.some_bind,
    if_pos hlen, Option.map_some', hL]

theorem append_writes_exact_frame_witness :
    HadroDB.append (hadroOpen []) (RecordInput.sequence [Value.int 2]) =
      some ({ file := (hadroOpen []).file ++
                (0 :: beBytes 4 ([145, 2] : List Nat).length ++ [145, 2]),
              write_position := (hadroOpen []).write_position +
                (5 + ([145, 2] : List Nat).length),
              key_dir := (hadroOpen []).key_dir }, none) :=
  append_writes_exact_frame (hadroOpen []) [Value.int 2] [145, 2]
    (by decide) (by decide)

/-- C10: `append` accepts a mapping or a sequence; for a mapping the
encoded row is the mapping's values in insertion order with the keys
discarded, so a mapping and a sequence with equal value tuples make
`append` write identical bytes and produce identical states and return
values. -/
theorem append_mapping_matches_sequence (db : HadroDB)
    (kvs : List (String × Value)) (vs : List Value)
    (h : kvs.map Prod.snd = vs) :
    HadroDB.append db (RecordInput.mapping kvs) =
      HadroDB.append db (RecordInput.sequence vs) := by
  subst h
  rfl

theorem append_mapping_matches_sequence_witness :
    HadroDB.append (hadroOpen []) (RecordInput.mapping [("a", Value.int 3)]) =
      HadroDB.append (hadroOpen []) (RecordInput.sequence [Value.int 3]) :=
  append_mapping_matches_sequence (hadroOpen []) [("a", Value.int 3)]
    [Value.int 3] rfl

/-- C3 (code evaluated at the failing input): opening a collection whose
log already contains a live frame leaves the KeyDir empty — `__init__`
sets `key_dir = {}` and its `_init_key_dir` call is commented out — even
though scanning the same log yields that frame's payload, so no live key
is mapped to any location. -/
theorem open_leaves_key_dir_empty :
    (hadroOpen [0, 0, 0, 0, 2, 145, 7]).key_dir = [] ∧
    HadroDB.scan (hadroOpen [0, 0, 0, 0, 2, 145, 7]) =
      ScanResult.ok [[145, 7]] := by
  decide

theorem frame_payload_extract (file payload : List Nat) :
    ((file ++ mkFrame 0 payload).drop (file.length + 5)).take payload.length =
      payload := by
  have hmk : ((0 : Nat) :: beBytes 4 payload.length).length = 5 := by
    simp [length_beBytes]
  rw [← List.drop_drop, List.drop_left]
  show (((0 :: beBytes 4 payload.length) ++ payload).drop 5).take payload.length
    = payload
  rw [List.drop_left' hmk, List.take_length]

theorem specGet_specSet {st st1 : SpecState} {k : List Nat} {v : List Value}
    (h : specSet st k v = some st1) : specGet st1 k = some v := by
  simp only [specSet, Option.bind_eq_some] at h
  obtain ⟨payload, hp, h⟩ := h
  split_ifs at h with hlen
  injection h with h
  subst h
  simp only [specGet, kdLookup, if_pos rfl, Option.some_bind]
  show unpackb
      (((st.file ++ mkFrame 0 payload).drop (st.file.length + 5)).take
        payload.length) = some v
  rw [frame_payload_extract]
  exact unpackb_packb hp

theorem kdLookup_kdRemove_self (kd : List (List Nat × Nat × Nat))
    (k : List Nat) : kdLookup (kdRemove kd k) k = none := by
  induction kd with
  | nil => rfl
  | cons e rest ih =>
    by_cases he : e.1 = k
    · simpa [kdRemove, List.filter_cons, he] using ih
    · simpa [kdRemove, List.filter_cons, he, kdLookup] using ih

theorem kdLookup_kdRemove_ne {kd : List (List Nat × Nat × Nat)}
    {k k2 : List Nat} (h : k2 ≠ k) :
    kdLookup (kdRemove kd k2) k = kdLookup kd k := by
  induction kd with
  | nil => rfl
  | cons e rest ih =>
    by_cases he : e.1 = k2
    · have hdrop : kdRemove (e :: rest) k2 = kdRemove rest k2 := by
        simp [kdRemove, List.filter_cons, he]
      have hek : ¬ e.1 = k := by rw [he]; exact h
      rw [hdrop, ih]
      simp only [kdLookup, if_neg hek]
    · have hkeep : kdRemove (e :: rest) k2 = e :: kdRemove rest k2 := by
        simp [kdRemove, List.filter_cons, he]
      rw [hkeep]
      by_cases hek : e.1 = k
      · simp only [kdLookup, if_pos hek]
      · simp only [kdLookup, if_neg hek]
        exact ih

theorem kdLookup_specApply_ne {st : SpecState} {op : SpecOp} {k : List Nat}
    (h : op.key ≠ k) :
    kdLookup (specApply st op).keyDir k = kdLookup st.keyDir k := by
  cases op with
  | set k2 v =>
    simp only [SpecOp.key] at h
    cases hs : specSet st k2 v with
    | none => simp [specApply, hs]
    | some st2 =>
      have hs0 := hs
      simp only [specSet, Option.bind_eq_some] at hs
      obtain ⟨payload, hp, hs⟩ := hs
      split_ifs at hs with hlen
      injection hs with hs
      subst hs
      simp [specApply, hs0, kdLookup, h]
  | del k2 =>
    simp only [SpecOp.key] at h
    exact kdLookup_kdRemove_ne h

theorem specApply_file_prefix (st : SpecState) (op : SpecOp) :
    ∃ ext, (specApply st op).file = st.file ++ ext := by
  cases op with
  | set k v =>
    cases hs : specSet st k v with
    | none => exact ⟨[], by simp [specApply, hs]⟩
    | some st2 =>
      have hs0 := hs
      simp only [specSet, Option.bind_eq_some] at hs
      obtain ⟨payload, hp, hs⟩ := hs
      split_ifs at hs with hlen
      injection hs with hs
      subst hs
      exact ⟨mkFrame 0 payload, by simp [specApply, hs0]⟩
  | del k => exact ⟨mkFrame 1 k, rfl⟩

theorem take_drop_append {a ext : List Nat} {off sz : Nat}
    (h : off + sz ≤ a.length) :
    ((a ++ ext).drop off).take sz = (a.drop off).take sz := by
  rw [List.drop_append_of_le_length (by omega),
    List.take_append_of_le_length (by rw [List.length_drop]; omega)]

theorem specRun_preserves_get {st : SpecState} {k : List Nat} {off sz : Nat}
    {ops : List SpecOp}
    (hl : kdLookup st.keyDir k = some (off, sz))
    (hv : off + sz ≤ st.file.length)
    (hops : ∀ op ∈ ops, op.key ≠ k) :
    kdLookup (specRun st ops).keyDir k = some (off, sz) ∧
    ((specRun st ops).file.drop off).take sz = (st.file.drop off).take sz ∧
    st.file.length ≤ (specRun st ops).file.length := by
  induction ops generalizing st with
  | nil => exact ⟨hl, rfl, le_refl _⟩
  | cons op ops ih =>
    have hne := hops op (by simp)
    obtain ⟨ext, hext⟩ := specApply_file_prefix st op
    have hl2 : kdLookup (specApply st op).keyDir k = some (off, sz) := by
      rw [kdLookup_specApply_ne hne]
      exact hl
    have hv2 : off + sz ≤ (specApply st op).file.length := by
      rw [hext, List.length_append]
      omega
    obtain ⟨ha, hb, hc⟩ := ih hl2 hv2 (fun o ho => hops o (by simp [ho]))
    simp only [specRun]
    refine ⟨ha, ?_, ?_⟩
    · rw [hb, hext, take_drop_append hv]
    · rw [hext, List.length_append] at hc
      omega

/-- C2 (spec-modelled): last-writer-wins.  After `set(k, v1)` then
`set(k, v2)`, `get(k)` returns `v2`; after `set(k, v)` then `delete(k)`,
`get(k)` signals `KeyNotFound` (`none`); and after a successful
`set(k, v)`, `get(k)` keeps returning `v` across any sequence of further
`set`/`delete` operations that do not touch `k`. -/
theorem set_get_delete_lww :
    (∀ (st st1 st2 : SpecState) (k : List Nat) (v1 v2 : List Value),
        specSet st k v1 = some st1 → specSet st1 k v2 = some st2 →
        specGet st2 k = some v2) ∧
    (∀ (st st1 : SpecState) (k : List Nat) (v : List Value),
        specSet st k v = some st1 → specGet (specDelete st1 k) k = none) ∧
    (∀ (st st1 : SpecState) (k : List Nat) (v : List Value)
        (ops : List SpecOp),
        specSet st k v = some st1 → (∀ op ∈ ops, op.key ≠ k) →
        specGet (specRun st1 ops) k = some v) := by
  refine ⟨?_, ?_, ?_⟩
  · intro st st1 st2 k v1 v2 h1 h2
    exact specGet_specSet h2
  · intro st st1 k v h
    simp [specGet, specDelete, kdLookup_kdRemove_self]
  · intro st st1 k v ops h hops
    have h0 := h
    simp only [specSet, Option.bind_eq_some] at h
    obtain ⟨payload, hp, h⟩ := h
    split_ifs at h with hlen
    injection h with h
    subst h
    obtain ⟨ha, hb, _⟩ := @specRun_preserves_get
      ⟨st.file ++ mkFrame 0 payload,
        (k, st.file.length + 5, payload.length) :: st.keyDir⟩
      k (st.file.length + 5) payload.length ops
      (by simp [kdLookup])
      (by simp only [mkFrame, List.length_append, List.length_cons,
        length_beBytes]; omega) hops
    simp only [specGet, ha, Option.some_bind]
    show unpackb
        (((specRun _ ops).file.drop (st.file.length + 5)).take
          payload.length) = some v
    rw [hb, frame_payload_extract]
    exact unpackb_packb hp

theorem set_get_delete_lww_witness :
    specGet ⟨[0, 0, 0, 0, 2, 145, 5, 0, 0, 0, 0, 2, 145, 7],
        [([1], 12, 2), ([1], 5, 2)]⟩ [1] = some [Value.int 7] ∧
    specGet (specDelete ⟨[0, 0, 0, 0, 2, 145, 5], [([1], 5, 2)]⟩ [1]) [1] =
      none ∧
    specGet (specRun ⟨[0, 0, 0, 0, 2, 145, 5], [([1], 5, 2)]⟩
        [SpecOp.del [2]]) [1] = some [Value.int 5] :=
  ⟨set_get_delete_lww.1 ⟨[], []⟩ ⟨[0, 0, 0, 0, 2, 145, 5], [([1], 5, 2)]⟩
      ⟨[0, 0, 0, 0, 2, 145, 5, 0, 0, 0, 0, 2, 145, 7],
        [([1], 12, 2), ([1], 5, 2)]⟩ [1] [Value.int 5] [Value.int 7] rfl rfl,
    set_get_delete_lww.2.1 ⟨[], []⟩ ⟨[0, 0, 0, 0, 2, 145, 5], [([1], 5, 2)]⟩
      [1] [Value.int 5] rfl,
    set_get_delete_lww.2.2 ⟨[], []⟩ ⟨[0, 0, 0, 0, 2, 145, 5], [([1], 5, 2)]⟩
      [1] [Value.int 5] [SpecOp.del [2]] rfl
      (fun op hop => by
        rcases List.mem_singleton.mp hop with rfl
        decide)⟩

